import Mathlib

/-
Verification of the `vector` Go package: a 3D vector arithmetic utility
(construction, componentwise arithmetic, magnitude, normalisation, dot
product, distance, angle-between, heading, rotation, equality).

float64 values are embedded as real numbers; `math.Sqrt`, `math.Cos`,
`math.Sin`, `math.Acos`, `math.Abs` and `math.Mod` become `Real.sqrt`,
`Real.cos`, `Real.sin`, `Real.arccos`, `abs` and truncated remainder.
Variadic `...float64` parameters become `List ℝ`; an in-place mutating
method on `*Vector` becomes a function returning the updated value,
with the source's assignment order preserved.

The repository holds two versions of the package: `vector.go` and an
unnamed second file (part_000).  Where they differ (`Set`, `Equals`)
both versions are embedded, with `P0` marking the unnamed file's one.
-/

namespace vector

/-- Three float64 components, embedded as reals. -/
structure Vector where
  X : ℝ
  Y : ℝ
  Z : ℝ

/-- Constructor `NewVector(values ...float64)`: x, y, z start at 0 and the
first three arguments, when present, overwrite them in order. -/
def NewVector (values : List ℝ) : Vector :=
  let l := values.length
  let x := if 0 < l then values.getD 0 0 else 0
  let y := if 1 < l then values.getD 1 0 else 0
  let z := if 2 < l then values.getD 2 0 else 0
  ⟨x, y, z⟩

/-- `MagSq(v)` — free function, `vector.go`. -/
def MagSq (v : Vector) : ℝ :=
  v.X * v.X + v.Y * v.Y + v.Z * v.Z

/-- `Mag(v)` — free function, `vector.go`. -/
noncomputable def Mag (v : Vector) : ℝ :=
  Real.sqrt (MagSq v)

/-- `Div(v, d)` — componentwise scalar division, free function. -/
noncomputable def Div (v : Vector) (d : ℝ) : Vector :=
  ⟨v.X / d, v.Y / d, v.Z / d⟩

/-- `(*Vector).Div(d)` — mutating form; same arithmetic as `Div`. -/
noncomputable def divMut (v : Vector) (d : ℝ) : Vector :=
  ⟨v.X / d, v.Y / d, v.Z / d⟩

/-- `Mult(v, m)` — componentwise scalar multiple, free function. -/
def Mult (v : Vector) (m : ℝ) : Vector :=
  ⟨v.X * m, v.Y * m, v.Z * m⟩

/-- `(*Vector).Mult(m)` — mutating form; same arithmetic as `Mult`. -/
def multMut (v : Vector) (m : ℝ) : Vector :=
  ⟨v.X * m, v.Y * m, v.Z * m⟩

/-- `Normalise(v)` — free function: divides by the magnitude, no zero guard. -/
noncomputable def Normalise (v : Vector) : Vector :=
  Div v (Mag v)

/-- `(*Vector).Normalise()` — mutating form: `m := v.Mag(); v.Div(m)`. -/
noncomputable def normaliseMut (v : Vector) : Vector :=
  divMut v (Mag v)

/-- `DotProduct(v1, v2)` — free function. -/
def DotProduct (v1 v2 : Vector) : ℝ :=
  v1.X * v2.X + v1.Y * v2.Y + v1.Z * v2.Z

/-- `AngleBetween(v1, v2)` — `acos(dot / (|v1| |v2|))`, free function. -/
noncomputable def AngleBetween (v1 v2 : Vector) : ℝ :=
  Real.arccos (DotProduct v1 v2 / (Mag v1 * Mag v2))

/-- `Heading(v)` — free function: `AngleBetween(v, NewVector(10, 0))`.
Note the source compares against the full 3D vector `v`, not its (x,y)
projection. -/
noncomputable def Heading (v : Vector) : ℝ :=
  let base := NewVector [10, 0]
  AngleBetween v base

/-- `(Vector).Heading()` — method form: `base.AngleBetween(v)` with the
argument order swapped relative to the free function. -/
noncomputable def headingM (v : Vector) : ℝ :=
  let base := NewVector [10, 0]
  AngleBetween base v

/-- `Rotate(v, angle)` — free function.  The result is built with a
two-argument `NewVector`, so its z component is the constructor default 0. -/
noncomputable def Rotate (v : Vector) (angle : ℝ) : Vector :=
  let c := Real.cos (-angle)
  let s := Real.sin (-angle)
  NewVector [c * v.X - s * v.Y, s * v.X + c * v.Y]

/-- `(*Vector).Rotate(angle)` — mutating form.  The source assigns
`v.X = c*v.X - s*v.Y` first and then `v.Y = s*v.X + c*v.Y`, so the second
line reads the already-updated x; the embedding preserves that order. -/
noncomputable def rotateMut (v : Vector) (angle : ℝ) : Vector :=
  let c := Real.cos (-angle)
  let s := Real.sin (-angle)
  let v1 : Vector := ⟨c * v.X - s * v.Y, v.Y, v.Z⟩
  ⟨v1.X, s * v1.X + c * v1.Y, v1.Z⟩

/-- Magnitude squared is a sum of squares, hence nonnegative. -/
theorem magSq_nonneg (v : Vector) : 0 ≤ MagSq v := by
  have hx := mul_self_nonneg v.X
  have hy := mul_self_nonneg v.Y
  have hz := mul_self_nonneg v.Z
  unfold MagSq
  linarith

/-- Magnitude is a square root, hence nonnegative. -/
theorem mag_nonneg (v : Vector) : 0 ≤ Mag v :=
  Real.sqrt_nonneg _

/-- Claim C1 — code bug witness.  Rotation is documented as preserving
magnitude, but the mutating `(*Vector).Rotate` sends the unit vector
(1,0,0) rotated by π/2 to the zero vector: its magnitude drops from 1
to 0, because the y update reads the already-mutated x. -/
theorem rotateMut_drops_magnitude :
    Mag (rotateMut ⟨1, 0, 0⟩ (Real.pi / 2)) = 0 ∧
      Mag (⟨1, 0, 0⟩ : Vector) = 1 := by
  constructor
  · have h : rotateMut ⟨1, 0, 0⟩ (Real.pi / 2) = ⟨0, 0, 0⟩ := by
      simp [rotateMut, Real.cos_neg, Real.sin_neg, Real.cos_pi_div_two,
        Real.sin_pi_div_two]
    rw [h]
    show Real.sqrt (0 * 0 + 0 * 0 + 0 * 0) = 0
    norm_num
  · show Real.sqrt (1 * 1 + 0 * 0 + 0 * 0) = 1
    norm_num

/-- Claim C2 — code bug witness.  The mutating rotate reads the mutated x
when computing y: at v = (1,0,0), θ = π/2 it returns (0,0,0), while the
pure `Rotate` returns (0,−1,0). -/
theorem rotateMut_ne_rotate :
    rotateMut ⟨1, 0, 0⟩ (Real.pi / 2) = ⟨0, 0, 0⟩ ∧
      Rotate ⟨1, 0, 0⟩ (Real.pi / 2) = ⟨0, -1, 0⟩ := by
  constructor
  · simp [rotateMut, Real.cos_neg, Real.sin_neg, Real.cos_pi_div_two,
      Real.sin_pi_div_two]
  · simp [Rotate, NewVector, Real.cos_neg, Real.sin_neg, Real.cos_pi_div_two,
      Real.sin_pi_div_two]

/-- Claim C5 — counterexample.  The pure `Rotate` does not keep the z
component: at v = (0,0,1), θ = 0 the result's z is 0, not the original 1. -/
theorem rotate_resets_z_cex :
    (Rotate ⟨0, 0, 1⟩ 0).Z ≠ (⟨0, 0, 1⟩ : Vector).Z := by
  have h : (Rotate ⟨0, 0, 1⟩ 0).Z = 0 := by
    simp [Rotate, NewVector]
  rw [h]
  norm_num

/-- Claim C5 — amended.  The mutating rotate leaves z unchanged, while the
pure `Rotate` always resets z to 0 (it rebuilds the vector with a
two-argument constructor). -/
theorem rotate_z_behaviour :
    ∀ (v : Vector) (angle : ℝ),
      (rotateMut v angle).Z = v.Z ∧ (Rotate v angle).Z = 0 := by
  intro v angle
  constructor
  · rfl
  · simp [Rotate, NewVector]

/-- `(*Vector).Set(values ...float64)` from `vector.go`: zeroes everything
when called with no arguments, otherwise overwrites only the first
`len(values)` components, leaving the rest as they were. -/
def SetGo (v : Vector) (values : List ℝ) : Vector :=
  let l := values.length
  let v0 := if l = 0 then (⟨0, 0, 0⟩ : Vector) else v
  let v1 := if 0 < l then (⟨values.getD 0 0, v0.Y, v0.Z⟩ : Vector) else v0
  let v2 := if 1 < l then (⟨v1.X, values.getD 1 0, v1.Z⟩ : Vector) else v1
  if 2 < l then (⟨v2.X, v2.Y, values.getD 2 0⟩ : Vector) else v2

/-- `(*Vector).Set(values ...float64)` from the unnamed second file:
each branch also zeroes the components not covered yet, so a call
resets everything beyond the supplied arguments. -/
def SetP0 (v : Vector) (values : List ℝ) : Vector :=
  let l := values.length
  let v0 := if l = 0 then (⟨0, 0, 0⟩ : Vector) else v
  let v1 := if 0 < l then (⟨values.getD 0 0, 0, 0⟩ : Vector) else v0
  let v2 := if 1 < l then (⟨v1.X, values.getD 1 0, 0⟩ : Vector) else v1
  if 2 < l then (⟨v2.X, v2.Y, values.getD 2 0⟩ : Vector) else v2

/-- Claim C3 — code bug witness.  `vector.go`'s `Set` contradicts its own
doc comment: `Set(5)` on {1,2,3} keeps the old y and z, yielding {5,2,3};
only the unnamed file's `Set` resets them to give the documented {5,0,0}. -/
theorem setGo_keeps_old_components :
    SetGo ⟨1, 2, 3⟩ [5] = ⟨5, 2, 3⟩ ∧ SetP0 ⟨1, 2, 3⟩ [5] = ⟨5, 0, 0⟩ := by
  constructor
  · simp [SetGo]
  · simp [SetP0]

/-- `Equals(v1, v2)` from `vector.go`: per-axis absolute tolerance 1e-9. -/
def Equals (v1 v2 : Vector) : Prop :=
  |v1.X - v2.X| < 1 / 1000000000 ∧ |v1.Y - v2.Y| < 1 / 1000000000 ∧
    |v1.Z - v2.Z| < 1 / 1000000000

/-- `(Vector).Equals(v2)` method from `vector.go`: same tolerance test. -/
def equalsM (v1 v2 : Vector) : Prop :=
  |v1.X - v2.X| < 1 / 1000000000 ∧ |v1.Y - v2.Y| < 1 / 1000000000 ∧
    |v1.Z - v2.Z| < 1 / 1000000000

/-- `Equals(v1, v2)` from the unnamed second file: exact value equality. -/
def EqualsP0 (v1 v2 : Vector) : Prop :=
  v1.X = v2.X ∧ v1.Y = v2.Y ∧ v1.Z = v2.Z

/-- `(Vector).Equals(v2)` method from the unnamed second file: exact. -/
def equalsMP0 (v1 v2 : Vector) : Prop :=
  v1.X = v2.X ∧ v1.Y = v2.Y ∧ v1.Z = v2.Z

/-- Claim C8 — counterexample.  The two files disagree on the equality
policy: at a = (0,0,0), b = (1e-10,0,0) the `vector.go` tolerance-based
`Equals` accepts while the unnamed file's exact `Equals` rejects. -/
theorem equals_policies_disagree :
    Equals ⟨0, 0, 0⟩ ⟨1 / 10000000000, 0, 0⟩ ∧
      ¬ EqualsP0 ⟨0, 0, 0⟩ ⟨1 / 10000000000, 0, 0⟩ := by
  constructor
  · refine ⟨?_, ?_, ?_⟩ <;>
      · show |_| < (1 : ℝ) / 1000000000
        rw [abs_lt]
        norm_num
  · intro h
    have hx : (0 : ℝ) = 1 / 10000000000 := h.1
    norm_num at hx

/-- Claim C8 — amended.  Within each file the free function and the method
agree (vector.go: tolerance 1e-9; the unnamed file: exact equality), and
exact equality implies tolerance equality; but across the two files the
policies differ. -/
theorem equals_policy_within_file :
    ∀ a b : Vector,
      (Equals a b ↔ equalsM a b) ∧ (EqualsP0 a b ↔ equalsMP0 a b) ∧
        (EqualsP0 a b → Equals a b) := by
  intro a b
  refine ⟨Iff.rfl, Iff.rfl, ?_⟩
  rintro ⟨hx, hy, hz⟩
  refine ⟨?_, ?_, ?_⟩
  · rw [hx, sub_self, abs_zero]; norm_num
  · rw [hy, sub_self, abs_zero]; norm_num
  · rw [hz, sub_self, abs_zero]; norm_num

/-- Witness for the amended C8 theorem at a concrete input. -/
theorem equals_policy_within_file_witness :
    Equals ⟨1, 2, 3⟩ ⟨1, 2, 3⟩ :=
  (equals_policy_within_file ⟨1, 2, 3⟩ ⟨1, 2, 3⟩).2.2 ⟨rfl, rfl, rfl⟩

/-- `Random2d()`: the two `rand.Float64()` draws (uniform in [0,1)) are
passed explicitly; the source builds `NewVector(r1, r2)` and normalises
it in place. -/
noncomputable def Random2d (r1 r2 : ℝ) : Vector :=
  normaliseMut (NewVector [r1, r2])

/-- `Random3d()`: the three `rand.Float64()` draws are passed explicitly. -/
noncomputable def Random3d (r1 r2 r3 : ℝ) : Vector :=
  normaliseMut (NewVector [r1, r2, r3])

/-- Scalar division scales magnitude squared by the square of the divisor. -/
theorem magSq_div (v : Vector) (d : ℝ) :
    MagSq (Div v d) = MagSq v / (d * d) := by
  unfold MagSq Div
  simp only
  rw [div_mul_div_comm, div_mul_div_comm, div_mul_div_comm,
    div_add_div_same, div_add_div_same]

/-- For a vector of nonzero magnitude squared, normalising gives unit
magnitude exactly. -/
theorem mag_normalise_eq_one (v : Vector) (h : MagSq v ≠ 0) :
    Mag (Normalise v) = 1 := by
  have hsq : Mag v * Mag v = MagSq v := Real.mul_self_sqrt (magSq_nonneg v)
  have h1 : MagSq (Normalise v) = 1 := by
    rw [Normalise, magSq_div, hsq, div_self h]
  rw [Mag, h1, Real.sqrt_one]

/-- Claim C7.  For every vector of nonzero magnitude, the magnitude of the
normalised vector is within 1e-9 of 1 (in the real-number embedding it
is exactly 1), for both the pure and the mutating form. -/
theorem normalise_unit_mag (v : Vector) (h : MagSq v ≠ 0) :
    |Mag (Normalise v) - 1| < 1 / 1000000000 ∧
      |Mag (normaliseMut v) - 1| < 1 / 1000000000 := by
  have h1 : Mag (Normalise v) = 1 := mag_normalise_eq_one v h
  have h2 : Mag (normaliseMut v) = Mag (Normalise v) := rfl
  rw [h2, h1, sub_self, abs_zero]
  norm_num

/-- Witness for C7 at the concrete vector (3,4,0). -/
theorem normalise_unit_mag_witness :
    |Mag (Normalise ⟨3, 4, 0⟩) - 1| < 1 / 1000000000 :=
  (normalise_unit_mag ⟨3, 4, 0⟩ (by
    show (3 : ℝ) * 3 + 4 * 4 + 0 * 0 ≠ 0
    norm_num)).1

/-- A vector with nonnegative x has heading in [0, π/2]: the acos argument
is a quotient of nonnegative quantities. -/
theorem heading_mem_first_quadrant (w : Vector) (hx : 0 ≤ w.X) :
    0 ≤ Heading w ∧ Heading w ≤ Real.pi / 2 := by
  have hbase : NewVector [10, 0] = ⟨10, 0, 0⟩ := by simp [NewVector]
  have hdot : 0 ≤ DotProduct w (NewVector [10, 0]) := by
    rw [hbase]
    show 0 ≤ w.X * 10 + w.Y * 0 + w.Z * 0
    have := mul_nonneg hx (by norm_num : (0 : ℝ) ≤ 10)
    linarith
  have hquot : 0 ≤ DotProduct w (NewVector [10, 0]) /
      (Mag w * Mag (NewVector [10, 0])) :=
    div_nonneg hdot (mul_nonneg (mag_nonneg _) (mag_nonneg _))
  exact ⟨Real.arccos_nonneg _, Real.arccos_le_pi_div_two.mpr hquot⟩

/-- Claim C10.  With draws in [0,1), `Random2d` returns a vector with
z = 0 and nonnegative x and y — its heading stays inside one quadrant,
[0, π/2] — and `Random3d` returns a vector with all components
nonnegative. -/
theorem random_vectors_one_quadrant (r1 r2 r3 : ℝ)
    (h1 : 0 ≤ r1) (h1u : r1 < 1) (h2 : 0 ≤ r2) (h2u : r2 < 1)
    (h3 : 0 ≤ r3) (h3u : r3 < 1) :
    (¬(r1 = 0 ∧ r2 = 0) →
      (Random2d r1 r2).Z = 0 ∧ 0 ≤ (Random2d r1 r2).X ∧
        0 ≤ (Random2d r1 r2).Y ∧ 0 ≤ Heading (Random2d r1 r2) ∧
        Heading (Random2d r1 r2) ≤ Real.pi / 2) ∧
    (¬(r1 = 0 ∧ r2 = 0 ∧ r3 = 0) →
      0 ≤ (Random3d r1 r2 r3).X ∧ 0 ≤ (Random3d r1 r2 r3).Y ∧
        0 ≤ (Random3d r1 r2 r3).Z) := by
  have hv2 : NewVector [r1, r2] = ⟨r1, r2, 0⟩ := by simp [NewVector]
  have hv3 : NewVector [r1, r2, r3] = ⟨r1, r2, r3⟩ := by simp [NewVector]
  constructor
  · intro _
    have hX : (Random2d r1 r2).X = r1 / Mag (NewVector [r1, r2]) := rfl
    have hY : (Random2d r1 r2).Y = r2 / Mag (NewVector [r1, r2]) := by
      show (NewVector [r1, r2]).Y / Mag (NewVector [r1, r2]) = _
      rw [hv2]
    have hZ : (Random2d r1 r2).Z = 0 := by
      show (NewVector [r1, r2]).Z / Mag (NewVector [r1, r2]) = 0
      rw [hv2]
      exact zero_div _
    have hXnn : 0 ≤ (Random2d r1 r2).X := by
      rw [hX]
      show 0 ≤ (NewVector [r1, r2]).X / _
      rw [hv2]
      exact div_nonneg h1 (mag_nonneg _)
    refine ⟨hZ, hXnn, ?_, ?_, ?_⟩
    · rw [hY]
      exact div_nonneg h2 (mag_nonneg _)
    · exact (heading_mem_first_quadrant _ hXnn).1
    · exact (heading_mem_first_quadrant _ hXnn).2
  · intro _
    refine ⟨?_, ?_, ?_⟩
    · show 0 ≤ (NewVector [r1, r2, r3]).X / Mag (NewVector [r1, r2, r3])
      rw [hv3]
      exact div_nonneg h1 (mag_nonneg _)
    · show 0 ≤ (NewVector [r1, r2, r3]).Y / Mag (NewVector [r1, r2, r3])
      rw [hv3]
      exact div_nonneg h2 (mag_nonneg _)
    · show 0 ≤ (NewVector [r1, r2, r3]).Z / Mag (NewVector [r1, r2, r3])
      rw [hv3]
      exact div_nonneg h3 (mag_nonneg _)

/-- Witness for C10 at the draws (1/2, 1/3, 1/4). -/
theorem random_vectors_one_quadrant_witness :
    (Random2d (1 / 2) (1 / 3)).Z = 0 :=
  (((random_vectors_one_quadrant (1 / 2) (1 / 3) (1 / 4)
    (by norm_num) (by norm_num) (by norm_num) (by norm_num)
    (by norm_num) (by norm_num)).1) (by norm_num)).1

/-- Modelled from the spec: heading as the angle the 2D projection (x,y)
makes with the positive x-axis, `angleBetween(v', (1,0))` where v' is the
projection.  Stated for comparison with the source's `Heading`. -/
noncomputable def headingSpec (v : Vector) : ℝ :=
  AngleBetween ⟨v.X, v.Y, 0⟩ (NewVector [1, 0])

/-- Dot product is symmetric. -/
theorem dotProduct_comm (a b : Vector) : DotProduct a b = DotProduct b a := by
  unfold DotProduct
  ring

/-- Claim C4 — counterexample.  On a vector with nonzero z, `Heading` is
not the heading of the (x,y) projection: at v = (1,0,1) the source's
`Heading` gives π/4 (it feeds the full 3D vector to `AngleBetween`),
while the projection's heading is 0. -/
theorem heading_uses_z_cex :
    Heading ⟨1, 0, 1⟩ = Real.pi / 4 ∧ headingSpec ⟨1, 0, 1⟩ = 0 ∧
      Heading ⟨1, 0, 1⟩ ≠ headingSpec ⟨1, 0, 1⟩ := by
  have hbase : NewVector [10, 0] = ⟨10, 0, 0⟩ := by simp [NewVector]
  have hbase1 : NewVector [1, 0] = ⟨1, 0, 0⟩ := by simp [NewVector]
  have hs2 : Real.sqrt 2 * Real.sqrt 2 = 2 :=
    Real.mul_self_sqrt (by norm_num)
  have hs2pos : 0 < Real.sqrt 2 := Real.sqrt_pos.mpr (by norm_num)
  have hmag101 : Mag ⟨1, 0, 1⟩ = Real.sqrt 2 := by
    show Real.sqrt (1 * 1 + 0 * 0 + 1 * 1) = Real.sqrt 2
    norm_num
  have hmag10 : Mag (⟨10, 0, 0⟩ : Vector) = 10 := by
    show Real.sqrt (10 * 10 + 0 * 0 + 0 * 0) = 10
    rw [show (10 : ℝ) * 10 + 0 * 0 + 0 * 0 = 10 ^ 2 by norm_num]
    exact Real.sqrt_sq (by norm_num)
  have hmag1 : Mag (⟨1, 0, 0⟩ : Vector) = 1 := by
    show Real.sqrt (1 * 1 + 0 * 0 + 0 * 0) = 1
    norm_num
  have hH : Heading ⟨1, 0, 1⟩ = Real.pi / 4 := by
    show AngleBetween ⟨1, 0, 1⟩ (NewVector [10, 0]) = Real.pi / 4
    rw [hbase]
    unfold AngleBetween
    rw [hmag101, hmag10]
    have hdot : DotProduct ⟨1, 0, 1⟩ ⟨10, 0, 0⟩ = 10 := by
      show (1 : ℝ) * 10 + 0 * 0 + 1 * 0 = 10
      norm_num
    rw [hdot]
    have hratio : (10 : ℝ) / (Real.sqrt 2 * 10) = Real.sqrt 2 / 2 := by
      rw [div_eq_div_iff (by positivity) (by norm_num)]
      nlinarith [hs2]
    rw [hratio, ← Real.cos_pi_div_four]
    exact Real.arccos_cos (by positivity) (by linarith [Real.pi_pos])
  have hS : headingSpec ⟨1, 0, 1⟩ = 0 := by
    show AngleBetween ⟨1, 0, 0⟩ (NewVector [1, 0]) = 0
    rw [hbase1]
    unfold AngleBetween
    rw [hmag1]
    have hdot : DotProduct ⟨1, 0, 0⟩ ⟨1, 0, 0⟩ = 1 := by
      show (1 : ℝ) * 1 + 0 * 0 + 0 * 0 = 1
      norm_num
    rw [hdot]
    norm_num
  refine ⟨hH, hS, ?_⟩
  rw [hH, hS]
  intro hcontra
  have := Real.pi_pos
  linarith

/-- Claim C4 — amended.  `Heading` always lands in [0, π]; the method form
agrees with the free function; and on 2D vectors (z = 0) — only there —
it coincides with the spec's projection-based formulation. -/
theorem heading_amended (v : Vector) :
    (0 ≤ Heading v ∧ Heading v ≤ Real.pi) ∧
      headingM v = Heading v ∧
      (v.Z = 0 → Heading v = headingSpec v) := by
  refine ⟨⟨Real.arccos_nonneg _, Real.arccos_le_pi _⟩, ?_, ?_⟩
  · show AngleBetween (NewVector [10, 0]) v = AngleBetween v (NewVector [10, 0])
    unfold AngleBetween
    rw [dotProduct_comm, mul_comm]
  · intro hz
    obtain ⟨x, y, z⟩ := v
    have hz0 : z = 0 := hz
    subst hz0
    have hbase : NewVector [10, 0] = ⟨10, 0, 0⟩ := by simp [NewVector]
    have hbase1 : NewVector [1, 0] = ⟨1, 0, 0⟩ := by simp [NewVector]
    show AngleBetween ⟨x, y, 0⟩ (NewVector [10, 0]) =
      AngleBetween ⟨x, y, 0⟩ (NewVector [1, 0])
    rw [hbase, hbase1]
    unfold AngleBetween
    have hmag10 : Mag (⟨10, 0, 0⟩ : Vector) = 10 := by
      show Real.sqrt (10 * 10 + 0 * 0 + 0 * 0) = 10
      rw [show (10 : ℝ) * 10 + 0 * 0 + 0 * 0 = 10 ^ 2 by norm_num]
      exact Real.sqrt_sq (by norm_num)
    have hmag1 : Mag (⟨1, 0, 0⟩ : Vector) = 1 := by
      show Real.sqrt (1 * 1 + 0 * 0 + 0 * 0) = 1
      norm_num
    rw [hmag10, hmag1]
    have hd10 : DotProduct ⟨x, y, 0⟩ ⟨10, 0, 0⟩ = 10 * x := by
      show x * 10 + y * 0 + 0 * 0 = 10 * x
      ring
    have hd1 : DotProduct ⟨x, y, 0⟩ ⟨1, 0, 0⟩ = x := by
      show x * 1 + y * 0 + 0 * 0 = x
      ring
    rw [hd10, hd1, mul_one, mul_comm (Mag ⟨x, y, 0⟩) 10,
      mul_div_mul_left _ _ (by norm_num : (10 : ℝ) ≠ 0)]

/-- Witness for the amended C4 theorem at the 2D vector (1,2,0). -/
theorem heading_amended_witness :
    Heading ⟨1, 2, 0⟩ = headingSpec ⟨1, 2, 0⟩ :=
  (heading_amended ⟨1, 2, 0⟩).2.2 rfl

/-- Truncation toward zero, the rounding used by Go's `math.Mod`. -/
noncomputable def goTrunc (r : ℝ) : ℝ :=
  if 0 ≤ r then (⌊r⌋ : ℤ) else (⌈r⌉ : ℤ)

/-- Go's `math.Mod(x, y)`: IEEE remainder whose sign follows x,
`x - y*Trunc(x/y)`. -/
noncomputable def goMod (x y : ℝ) : ℝ :=
  x - y * goTrunc (x / y)

/-- `quadrant(angle)` from `vector.go`; the `log.Printf` calls are ignored.
The argument is reduced modulo 2π with `math.Mod`, which keeps the sign of
the dividend, so negative inputs fall through every branch to "ne". -/
noncomputable def quadrant (angle : ℝ) : String :=
  let a := goMod angle (2 * Real.pi)
  if 0 ≤ a ∧ a ≤ Real.pi / 2 then "se"
  else if Real.pi / 2 ≤ a ∧ a ≤ Real.pi then "sw"
  else if Real.pi ≤ a ∧ a < 3 * Real.pi / 2 then "nw"
  else "ne"

/-- `FromAngle(values ...float64)`: negates the angle, takes (cos, sin),
normalises, scales when a second argument is given, then forces the sign
of each axis according to `quadrant` of the (already negated) angle.
Go's `switch` evaluates `quadrant(angle)` once; the equivalent `if` chain
here re-evaluates the same pure expression. -/
noncomputable def FromAngle (values : List ℝ) : Vector :=
  let angle := -1 * values.getD 0 0
  let length := if values.length = 2 then values.getD 1 0 else 1
  let x := Real.cos angle
  let y := Real.sin angle
  let v0 := NewVector [x, y]
  let v1 := normaliseMut v0
  let v2 := if length ≠ 1 then multMut v1 length else v1
  if quadrant angle = "ne" then ⟨|v2.X|, |v2.Y|, v2.Z⟩
  else if quadrant angle = "se" then ⟨|v2.X|, -1 * |v2.Y|, v2.Z⟩
  else if quadrant angle = "sw" then ⟨-1 * |v2.X|, -1 * |v2.Y|, v2.Z⟩
  else if quadrant angle = "nw" then ⟨-1 * |v2.X|, |v2.Y|, v2.Z⟩
  else v2

/-- The negated angle −π/4 is classified "ne" by `quadrant`: `math.Mod`
keeps it negative, so every branch condition fails. -/
theorem quadrant_neg_pi_div_four : quadrant (-(Real.pi / 4)) = "ne" := by
  have hpi := Real.pi_pos
  have hdiv : (-(Real.pi / 4)) / (2 * Real.pi) = -(1 / 8) := by
    rw [div_eq_iff (by positivity)]
    ring
  have hceil : ⌈(-(1 / 8) : ℝ)⌉ = (0 : ℤ) := by
    rw [Int.ceil_eq_zero_iff]
    simp only [Set.mem_Ioc]
    norm_num
  have hmod : goMod (-(Real.pi / 4)) (2 * Real.pi) = -(Real.pi / 4) := by
    unfold goMod goTrunc
    rw [hdiv, if_neg (by norm_num), hceil]
    push_cast
    ring
  show (if 0 ≤ goMod (-(Real.pi / 4)) (2 * Real.pi) ∧
        goMod (-(Real.pi / 4)) (2 * Real.pi) ≤ Real.pi / 2 then "se"
      else if Real.pi / 2 ≤ goMod (-(Real.pi / 4)) (2 * Real.pi) ∧
        goMod (-(Real.pi / 4)) (2 * Real.pi) ≤ Real.pi then "sw"
      else if Real.pi ≤ goMod (-(Real.pi / 4)) (2 * Real.pi) ∧
        goMod (-(Real.pi / 4)) (2 * Real.pi) < 3 * Real.pi / 2 then "nw"
      else "ne") = "ne"
  rw [hmod]
  rw [if_neg (by rintro ⟨h, -⟩; nlinarith)]
  rw [if_neg (by rintro ⟨h, -⟩; nlinarith)]
  rw [if_neg (by rintro ⟨h, -⟩; nlinarith)]

/-- Claim C6 — code bug witness.  `FromAngle` feeds the already negated
angle to `quadrant`, so at θ = π/4 the point is classified "ne" and both
signs are forced positive: the code returns (√2/2, √2/2, 0), while the
clockwise convention `(cos(−θ)·L, sin(−θ)·L)` demands y = −√2/2. -/
theorem fromAngle_quadrant_bug :
    FromAngle [Real.pi / 4] = ⟨Real.sqrt 2 / 2, Real.sqrt 2 / 2, 0⟩ ∧
      Real.sin (-1 * (Real.pi / 4)) * 1 = -(Real.sqrt 2 / 2) := by
  have hneg : (-1 : ℝ) * (Real.pi / 4) = -(Real.pi / 4) := by ring
  have hcos : Real.cos (-1 * (Real.pi / 4)) = Real.sqrt 2 / 2 := by
    rw [hneg, Real.cos_neg, Real.cos_pi_div_four]
  have hsin : Real.sin (-1 * (Real.pi / 4)) = -(Real.sqrt 2 / 2) := by
    rw [hneg, Real.sin_neg, Real.sin_pi_div_four]
  have hs2 : Real.sqrt 2 * Real.sqrt 2 = 2 := Real.mul_self_sqrt (by norm_num)
  constructor
  · have hnv : NewVector [Real.sqrt 2 / 2, -(Real.sqrt 2 / 2)] =
        ⟨Real.sqrt 2 / 2, -(Real.sqrt 2 / 2), 0⟩ := by
      simp [NewVector]
    have hmagv : Mag ⟨Real.sqrt 2 / 2, -(Real.sqrt 2 / 2), 0⟩ = 1 := by
      show Real.sqrt (Real.sqrt 2 / 2 * (Real.sqrt 2 / 2) +
        -(Real.sqrt 2 / 2) * -(Real.sqrt 2 / 2) + 0 * 0) = 1
      rw [show Real.sqrt 2 / 2 * (Real.sqrt 2 / 2) +
        -(Real.sqrt 2 / 2) * -(Real.sqrt 2 / 2) + 0 * 0 = 1 by nlinarith [hs2]]
      exact Real.sqrt_one
    have hv2 : normaliseMut ⟨Real.sqrt 2 / 2, -(Real.sqrt 2 / 2), 0⟩ =
        ⟨Real.sqrt 2 / 2, -(Real.sqrt 2 / 2), 0⟩ := by
      unfold normaliseMut divMut
      rw [hmagv]
      norm_num
    have habs1 : |Real.sqrt 2 / 2| = Real.sqrt 2 / 2 :=
      abs_of_nonneg (by positivity)
    have habs2 : |(-(Real.sqrt 2 / 2))| = Real.sqrt 2 / 2 := by
      rw [abs_neg]
      exact habs1
    unfold FromAngle
    simp only [List.getD, List.length_cons, List.length_nil]
    norm_num
    rw [hnv, hv2, quadrant_neg_pi_div_four, if_pos rfl]
    show Vector.mk |Real.sqrt 2 / 2| |(-(Real.sqrt 2 / 2))| 0 = _
    rw [habs1, habs2]
  · rw [hsin, mul_one]

/-- Exactly `prec` decimal digits of a fraction part `fp < 10^prec`, most
significant digit first. -/
def fracDigits (prec : ℕ) (fp : ℕ) : String :=
  String.mk ((List.range prec).reverse.map
    (fun i => Char.ofNat (48 + fp / 10 ^ i % 10)))

/-- Fixed-point decimal formatting with `prec` digits after the point,
rounding to nearest: `scaled` is `⌊|q|·10^prec + 1/2⌋` written in integer
arithmetic on the numerator and denominator.  Go's `%f` rounds the binary
float to the nearest decimal string; on the exactly representable inputs
used below the two agree.  Components are taken as exact decimal
rationals. -/
def fmtFixed (prec : ℕ) (q : ℚ) : String :=
  let scaled : ℕ := (2 * q.num.natAbs * 10 ^ prec + q.den) / (2 * q.den)
  let ip := scaled / 10 ^ prec
  let fp := scaled % 10 ^ prec
  (if q < 0 then "-" else "") ++ toString ip ++
    (if prec = 0 then "" else "." ++ fracDigits prec fp)

/-- Space padding up to a minimum width, the width effect of a `%2f` verb. -/
def padWidth (w : ℕ) (s : String) : String :=
  if s.length < w then String.mk (List.replicate (w - s.length) ' ') ++ s
  else s

/-- `(Vector).String()`: `fmt.Sprintf` with the format
`\x7b%2f, %2f, %2f\x7d`.  The verb `%2f` sets minimum width 2 and leaves
the precision at the `%f` default of six digits — it is not `%.2f`. -/
def stringGo (x y z : ℚ) : String :=
  "\x7b" ++ padWidth 2 (fmtFixed 6 x) ++ ", " ++ padWidth 2 (fmtFixed 6 y) ++
    ", " ++ padWidth 2 (fmtFixed 6 z) ++ "\x7d"

/-- Modelled from the spec: the same shape with each component formatted
to a fixed 2 decimal places. -/
def stringSpec (x y z : ℚ) : String :=
  "\x7b" ++ fmtFixed 2 x ++ ", " ++ fmtFixed 2 y ++ ", " ++ fmtFixed 2 z ++
    "\x7d"

/-- Claim C9 — counterexample.  At v = (1,2,3) the source's `String`
renders six decimal places per component, not the two the spec states. -/
theorem string_not_two_decimals_cex :
    stringGo 1 2 3 = "\x7b1.000000, 2.000000, 3.000000\x7d" ∧
      stringSpec 1 2 3 = "\x7b1.00, 2.00, 3.00\x7d" ∧
      stringGo 1 2 3 ≠ stringSpec 1 2 3 := by
  refine ⟨by decide, by decide, by decide⟩

/-- Claim C9 — amended.  The representation does have the shape
`\x7bx, y, z\x7d`, but each component carries exactly six digits after the
decimal point (`%2f`: width 2, default precision 6), shown here both in
general for the fraction field and on concrete vectors. -/
theorem string_six_decimals :
    (∀ fp : ℕ, (fracDigits 6 fp).length = 6) ∧
      stringGo 1 2 3 = "\x7b1.000000, 2.000000, 3.000000\x7d" ∧
      stringGo (mkRat (-1) 4) (mkRat 3 2) 0 =
        "\x7b-0.250000, 1.500000, 0.000000\x7d" := by
  refine ⟨?_, by decide, by decide⟩
  intro fp
  show (((List.range 6).reverse.map
    (fun i => Char.ofNat (48 + fp / 10 ^ i % 10))).length) = 6
  simp

end vector
